import Mathlib

/-!
Verification of the pochita bump-pointer arena allocator (DroplessArena)
against its natural-language specification.

Shallow embedding conventions, matching src/src/lib.rs:

* Raw pointers are modelled as natural-number byte addresses; the null
  pointer is address 0.
* Chunk acquisition (Chunk::new, which obtains a fresh boxed storage
  region from the global allocator) is modelled by an allocation oracle:
  the counter nextAddr hands out fresh, pairwise disjoint address
  ranges, starting at address 1 so that no chunk sits at the null
  address.  Out-of-memory aborts are not modelled (nothing in the
  specification claims depends on them).
* usize arithmetic that the source checks (checked_mul(...).unwrap() in
  can_allocate) is modelled explicitly against the 64-bit usize range; a
  panic is Option.none.
* Arena memory is an association list from byte addresses to element
  values, newest write first; every write is at the byte address of the
  first byte of the element slot being written.
* Cloning an element (src.iter().cloned() in alloc_slice_clone) is
  modelled as producing a value equal to the source element.
* The element size size_of::<T>() is an explicit parameter size of each
  operation; DroplessArena::new asserts it is nonzero, which theorems
  carry as the hypothesis 0 < size.
-/

namespace Pochita

/-- Constant PAGE from the source: 4096 bytes. -/
def PAGE : Nat := 4096

/-- Constant HUGE_PAGE from the source: 2 * 1024 * 1024 bytes (2 MiB). -/
def HUGE_PAGE : Nat := 2 * 1024 * 1024

/-- Largest value of usize on a 64-bit target; checked_mul succeeds
exactly when the mathematical product is at most this bound. -/
def usizeMax : Nat := 2 ^ 64 - 1

/-- Chunk<T>: one contiguous storage region, given by the byte address
of its first byte and its capacity in elements.  The storage itself is
uninitialized memory; its content lives in the arena's memory map. -/
structure Chunk where
  base : Nat
  cap : Nat
  deriving DecidableEq, Repr

/-- Chunk::len — the capacity of the chunk, in elements. -/
def Chunk.len (c : Chunk) : Nat := c.cap

/-- Chunk::start — address of the first byte of the chunk's storage. -/
def Chunk.startAddr (c : Chunk) : Nat := c.base

/-- Chunk::end — one-past-the-end address of the chunk's storage, for
element size size in bytes. -/
def Chunk.endAddr (size : Nat) (c : Chunk) : Nat := c.base + c.cap * size

/-- DroplessArena<T>: start/end bump window (byte addresses), the owned
chunks in push order, the allocation oracle counter, and the memory map
recording every element value written so far (newest first). -/
structure DroplessArena (T : Type) where
  start : Nat
  end_ : Nat
  chunks : List Chunk
  nextAddr : Nat
  mem : List (Nat × T)
  deriving DecidableEq

/-- Looks up the value most recently written at byte address a. -/
def lookupMem {T : Type} : List (Nat × T) → Nat → Option T
  | [], _ => none
  | (b, v) :: rest, a => if a = b then some v else lookupMem rest a

/-- DroplessArena::new — no chunks, null window.  (The source asserts
size_of::<T>() != 0 here; theorems carry that as 0 < size.) -/
def DroplessArena.new {T : Type} : DroplessArena T :=
  { start := 0, end_ := 0, chunks := [], nextAddr := 1, mem := [] }

/-- DroplessArena::can_allocate — whether the window holds at least
additional * size free bytes.  additional.checked_mul(size).unwrap()
panics (none) when the product exceeds usize::MAX. -/
def DroplessArena.can_allocate {T : Type} (size : Nat) (s : DroplessArena T)
    (additional : Nat) : Option Bool :=
  let available_bytes := s.end_ - s.start
  if additional * size ≤ usizeMax then
    some (decide (available_bytes ≥ additional * size))
  else
    none

/-- DroplessArena::reserve — acquire a new chunk sized by the growth
policy, push it, and reset the window to its bounds. -/
def DroplessArena.reserve {T : Type} (size : Nat) (s : DroplessArena T)
    (additional : Nat) : DroplessArena T :=
  let capacity := match s.chunks.getLast? with
    | some chunk => min chunk.len (HUGE_PAGE / size / 2) * 2
    | none => PAGE / size
  let chunk : Chunk := { base := s.nextAddr, cap := max additional capacity }
  { s with
      start := chunk.startAddr
      end_ := chunk.endAddr size
      chunks := s.chunks ++ [chunk]
      nextAddr := chunk.endAddr size }

/-- DroplessArena::ensure_capacity — grow if the window is too small;
none when can_allocate panics on overflow. -/
def DroplessArena.ensure_capacity {T : Type} (size : Nat) (s : DroplessArena T)
    (additional : Nat) : Option (DroplessArena T) :=
  match s.can_allocate size additional with
  | none => none
  | some true => some s
  | some false => some (s.reserve size additional)

/-- DroplessArena::alloc — reserve room for one element when the window
is exactly empty, then write src at start and advance start by one
element.  Returns the new state and the handle (the written address). -/
def DroplessArena.alloc {T : Type} (size : Nat) (s : DroplessArena T)
    (src : T) : DroplessArena T × Nat :=
  let s1 := if s.start = s.end_ then s.reserve size 1 else s
  let dst := s1.start
  ({ s1 with start := dst + size, mem := (dst, src) :: s1.mem }, dst)

/-- DroplessArena::alloc_raw_slice — ensure capacity for len elements
and advance start past them, returning the old start as destination.
The caller performs the writes. -/
def DroplessArena.alloc_raw_slice {T : Type} (size : Nat) (s : DroplessArena T)
    (len : Nat) : Option (DroplessArena T × Nat) :=
  match s.ensure_capacity size len with
  | none => none
  | some s1 =>
      let dst := s1.start
      some ({ s1 with start := dst + len * size }, dst)

/-- Writes the elements of src into consecutive element slots starting
at byte address dst, in source order (slot i at dst + i * size). -/
def writeSlice {T : Type} (size : Nat) (mem : List (Nat × T)) (dst : Nat) :
    List T → List (Nat × T)
  | [] => mem
  | v :: rest => writeSlice size ((dst, v) :: mem) (dst + size) rest

/-- DroplessArena::alloc_slice_copy — empty slices return an empty view
(length 0, dangling address 0) without touching the arena; otherwise
bitwise-copy the source elements into freshly reserved slots.  Returns
(state, destination address, length in elements). -/
def DroplessArena.alloc_slice_copy {T : Type} (size : Nat) (s : DroplessArena T)
    (src : List T) : Option (DroplessArena T × Nat × Nat) :=
  let len := src.length
  if len = 0 then
    some (s, 0, 0)
  else
    match s.alloc_raw_slice size len with
    | none => none
    | some (s1, dst) =>
        some ({ s1 with mem := writeSlice size s1.mem dst src }, dst, len)

/-- DroplessArena::alloc_slice_clone — same shape as alloc_slice_copy,
but each slot is written by cloning the corresponding source element in
source order (dst.add(index).write(item) for index = 0, 1, ...). -/
def DroplessArena.alloc_slice_clone {T : Type} (size : Nat) (s : DroplessArena T)
    (src : List T) : Option (DroplessArena T × Nat × Nat) :=
  let len := src.length
  if len = 0 then
    some (s, 0, 0)
  else
    match s.alloc_raw_slice size len with
    | none => none
    | some (s1, dst) =>
        some ({ s1 with mem := writeSlice size s1.mem dst src }, dst, len)

/-- DroplessArena::alloc_str — defined on DroplessArena<u8> only, where
the element size is 1: it is alloc_slice_copy over the UTF-8 bytes. -/
def DroplessArena.alloc_str {T : Type} (s : DroplessArena T) (src : List T) :
    Option (DroplessArena T × Nat × Nat) :=
  s.alloc_slice_copy 1 src

/-- An allocation handle: the byte range [addr, addr + len) of arena
storage the returned reference/slice covers. -/
structure Handle where
  addr : Nat
  len : Nat
  deriving DecidableEq, Repr

/-- The public operations that mutate the arena. -/
inductive Op (T : Type) where
  | alloc (src : T)
  | alloc_slice_copy (src : List T)
  | alloc_slice_clone (src : List T)
  | alloc_str (src : List T)
  | reserve (additional : Nat)
  | ensure_capacity (additional : Nat)
  deriving DecidableEq

/-- One public operation on the arena; returns the new state and the
handle the operation hands back to the caller, if any.  alloc_str only
exists on byte arenas (size = 1), where it is exactly alloc_slice_copy
at the arena's element size. -/
def step {T : Type} (size : Nat) (s : DroplessArena T) :
    Op T → Option (DroplessArena T × Option Handle)
  | .alloc v =>
      let r := s.alloc size v
      some (r.1, some { addr := r.2, len := size })
  | .alloc_slice_copy src =>
      (s.alloc_slice_copy size src).map fun r =>
        (r.1, some { addr := r.2.1, len := r.2.2 * size })
  | .alloc_slice_clone src =>
      (s.alloc_slice_clone size src).map fun r =>
        (r.1, some { addr := r.2.1, len := r.2.2 * size })
  | .alloc_str src =>
      (s.alloc_slice_copy size src).map fun r =>
        (r.1, some { addr := r.2.1, len := r.2.2 * size })
  | .reserve n => some (s.reserve size n, none)
  | .ensure_capacity n => (s.ensure_capacity size n).map fun s1 => (s1, none)

/-- Runs a sequence of public operations, collecting the issued
handles; none as soon as any operation panics. -/
def run {T : Type} (size : Nat) (s : DroplessArena T) :
    List (Op T) → Option (DroplessArena T × List Handle)
  | [] => some (s, [])
  | op :: ops =>
      match step size s op with
      | none => none
      | some (s1, h?) =>
          match run size s1 ops with
          | none => none
          | some (s2, hs) => some (s2, h?.toList ++ hs)

/-- Two byte ranges [addr, addr+len) are disjoint: one is empty or they
do not overlap. -/
def RangesDisjoint (h1 h2 : Handle) : Prop :=
  h1.len = 0 ∨ h2.len = 0 ∨ h1.addr + h1.len ≤ h2.addr ∨ h2.addr + h2.len ≤ h1.addr

instance (h1 h2 : Handle) : Decidable (RangesDisjoint h1 h2) := by
  unfold RangesDisjoint
  infer_instance

/-- Internal well-formedness of an arena state: the window is ordered,
sits below the allocation oracle, spans a whole number of elements, and
coincides with the tail of the most recently pushed chunk (or is null
when no chunk exists). -/
def Inv {T : Type} (size : Nat) (s : DroplessArena T) : Prop :=
  s.start ≤ s.end_ ∧ s.end_ ≤ s.nextAddr ∧ size ∣ (s.end_ - s.start) ∧
  (match s.chunks.getLast? with
   | none => s.start = 0 ∧ s.end_ = 0
   | some c => c.startAddr ≤ s.start ∧ s.end_ = c.endAddr size)

/-- The window invariant stated by the specification: start ≤ end, the
window lies inside the most recently pushed chunk (both pointers null
when no chunk exists), end - start is a whole multiple of the element
size, and a non-empty window has room for at least one element. -/
def WindowInv {T : Type} (size : Nat) (s : DroplessArena T) : Prop :=
  s.start ≤ s.end_ ∧ size ∣ (s.end_ - s.start) ∧
  (match s.chunks.getLast? with
   | none => s.start = 0 ∧ s.end_ = 0
   | some c => c.startAddr ≤ s.start ∧ s.end_ ≤ c.endAddr size) ∧
  (s.start < s.end_ → s.start + size ≤ s.end_)

/-! ### Basic lemmas about the operations -/

/-- The baseline element capacity computed by reserve before the floor
of additional is applied (the let capacity in the source). -/
def reserveBaseline {T : Type} (size : Nat) (s : DroplessArena T) : Nat :=
  match s.chunks.getLast? with
  | some chunk => min chunk.len (HUGE_PAGE / size / 2) * 2
  | none => PAGE / size

theorem reserve_eq {T : Type} (size : Nat) (s : DroplessArena T) (additional : Nat) :
    s.reserve size additional =
      { s with
          start := s.nextAddr
          end_ := s.nextAddr + max additional (reserveBaseline size s) * size
          chunks := s.chunks ++
            [{ base := s.nextAddr, cap := max additional (reserveBaseline size s) }]
          nextAddr := s.nextAddr + max additional (reserveBaseline size s) * size } := rfl

theorem reserve_start {T : Type} (size : Nat) (s : DroplessArena T) (n : Nat) :
    (s.reserve size n).start = s.nextAddr := by rw [reserve_eq]

theorem reserve_end {T : Type} (size : Nat) (s : DroplessArena T) (n : Nat) :
    (s.reserve size n).end_ = s.nextAddr + max n (reserveBaseline size s) * size := by
  rw [reserve_eq]

theorem reserve_chunks {T : Type} (size : Nat) (s : DroplessArena T) (n : Nat) :
    (s.reserve size n).chunks =
      s.chunks ++ [{ base := s.nextAddr, cap := max n (reserveBaseline size s) }] := by
  rw [reserve_eq]

theorem reserve_nextAddr {T : Type} (size : Nat) (s : DroplessArena T) (n : Nat) :
    (s.reserve size n).nextAddr = s.nextAddr + max n (reserveBaseline size s) * size := by
  rw [reserve_eq]

theorem reserve_mem {T : Type} (size : Nat) (s : DroplessArena T) (n : Nat) :
    (s.reserve size n).mem = s.mem := by rw [reserve_eq]

/-- After reserve, the window has at least n * size free bytes. -/
theorem reserve_avail {T : Type} (size : Nat) (s : DroplessArena T) (n : Nat) :
    n * size ≤ (s.reserve size n).end_ - (s.reserve size n).start := by
  rw [reserve_start, reserve_end, Nat.add_sub_cancel_left]
  exact Nat.mul_le_mul_right size (le_max_left _ _)

/-- Every state produced by reserve satisfies the internal invariant. -/
theorem Inv_reserve {T : Type} (size : Nat) (s : DroplessArena T) (n : Nat) :
    Inv size (s.reserve size n) := by
  unfold Inv
  rw [reserve_start, reserve_end, reserve_chunks, reserve_nextAddr]
  refine ⟨Nat.le_add_right _ _, le_refl _, ?_, ?_⟩
  · rw [Nat.add_sub_cancel_left]
    exact dvd_mul_left size _
  · rw [List.getLast?_concat]
    exact ⟨le_refl _, rfl⟩

/-- The fresh arena satisfies the internal invariant. -/
theorem Inv_new {T : Type} (size : Nat) : Inv size (DroplessArena.new (T := T)) := by
  unfold Inv DroplessArena.new
  exact ⟨Nat.le_refl _, Nat.zero_le _, dvd_zero size, ⟨rfl, rfl⟩⟩

theorem can_allocate_eq_some_iff {T : Type} (size : Nat) (s : DroplessArena T)
    (n : Nat) (b : Bool) :
    s.can_allocate size n = some b ↔
      n * size ≤ usizeMax ∧ b = decide (n * size ≤ s.end_ - s.start) := by
  unfold DroplessArena.can_allocate
  by_cases hof : n * size ≤ usizeMax
  · rw [if_pos hof]
    constructor
    · intro h
      injection h with h
      exact ⟨hof, h.symm⟩
    · intro ⟨_, hb⟩
      rw [hb]
  · rw [if_neg hof]
    constructor
    · intro h; cases h
    · intro ⟨h, _⟩; exact absurd h hof

theorem can_allocate_eq_none_iff {T : Type} (size : Nat) (s : DroplessArena T)
    (n : Nat) :
    s.can_allocate size n = none ↔ usizeMax < n * size := by
  unfold DroplessArena.can_allocate
  by_cases hof : n * size ≤ usizeMax
  · rw [if_pos hof]
    simp [Nat.not_lt.mpr hof]
  · rw [if_neg hof]
    simp [Nat.lt_of_not_le hof]

/-- Characterization of a successful ensure_capacity: either the window
already fits n elements and the state is unchanged, or the state is the
result of reserve. -/
theorem ensure_capacity_eq_some {T : Type} (size : Nat) (s s1 : DroplessArena T)
    (n : Nat) (h : s.ensure_capacity size n = some s1) :
    (s1 = s ∧ n * size ≤ s.end_ - s.start) ∨ s1 = s.reserve size n := by
  unfold DroplessArena.ensure_capacity at h
  cases hca : s.can_allocate size n with
  | none => rw [hca] at h; cases h
  | some b =>
      rw [hca] at h
      rw [can_allocate_eq_some_iff] at hca
      cases b with
      | true =>
          injection h with h
          refine Or.inl ⟨h.symm, ?_⟩
          exact of_decide_eq_true hca.2.symm
      | false =>
          injection h with h
          exact Or.inr h.symm

/-- ensure_capacity succeeds whenever the byte count does not overflow. -/
theorem ensure_capacity_total {T : Type} (size : Nat) (s : DroplessArena T)
    (n : Nat) (hof : n * size ≤ usizeMax) :
    s.ensure_capacity size n = some s ∨
      s.ensure_capacity size n = some (s.reserve size n) := by
  unfold DroplessArena.ensure_capacity
  by_cases hc : n * size ≤ s.end_ - s.start
  · left
    have : s.can_allocate size n = some true :=
      (can_allocate_eq_some_iff size s n true).mpr ⟨hof, (decide_eq_true hc).symm⟩
    rw [this]
  · right
    have : s.can_allocate size n = some false :=
      (can_allocate_eq_some_iff size s n false).mpr ⟨hof, (decide_eq_false hc).symm⟩
    rw [this]

/-- A successful ensure_capacity leaves at least n * size free bytes. -/
theorem ensure_capacity_avail {T : Type} (size : Nat) (s s1 : DroplessArena T)
    (n : Nat) (h : s.ensure_capacity size n = some s1) :
    n * size ≤ s1.end_ - s1.start := by
  rcases ensure_capacity_eq_some size s s1 n h with ⟨rfl, hc⟩ | rfl
  · exact hc
  · exact reserve_avail size s n

/-! ### Claim theorems: growth policy and capacity management -/

/-- C3: reserve(additional) pushes exactly one new block, whose element
capacity is max(additional, baseline), where baseline = 4096 / element_size
(PAGE / element_size) when no block exists yet and
min(previous_block_element_count, 2 MiB / element_size / 2) * 2 when a
block exists; this holds for every arena state and every additional. -/
theorem reserve_growth_policy {T : Type} (size : Nat) (hsize : 0 < size)
    (s : DroplessArena T) (additional : Nat) :
    (s.reserve size additional).chunks =
      s.chunks ++
        [{ base := s.nextAddr,
           cap := max additional (match s.chunks.getLast? with
             | some c => min c.cap (2 * 1024 * 1024 / size / 2) * 2
             | none => 4096 / size) }] := rfl

theorem reserve_growth_policy_witness :
    0 < 4 ∧ ((DroplessArena.new (T := Nat)).reserve 4 10).chunks =
      [{ base := 1, cap := 1024 }] :=
  ⟨by decide,
   (reserve_growth_policy 4 (by decide) (DroplessArena.new (T := Nat)) 10).trans
     (by decide)⟩

/-- C4: for every arena state and every count n whose byte size does not
overflow usize, ensure_capacity(n) returns successfully and afterwards
can_allocate(n) is true. -/
theorem ensure_capacity_postcondition {T : Type} (size : Nat) (s : DroplessArena T)
    (n : Nat) (hof : n * size ≤ usizeMax) :
    (s.ensure_capacity size n).bind (fun s1 => s1.can_allocate size n) = some true := by
  rcases ensure_capacity_total size s n hof with h | h
  all_goals
    rw [h, Option.some_bind]
    refine (can_allocate_eq_some_iff _ _ _ _).mpr ⟨hof, ?_⟩
    exact (decide_eq_true (ensure_capacity_avail size s _ n h)).symm

theorem ensure_capacity_postcondition_witness :
    10 * 4 ≤ usizeMax ∧
    ((DroplessArena.new (T := Nat)).ensure_capacity 4 10).bind
      (fun s1 => s1.can_allocate 4 10) = some true :=
  ⟨by decide, ensure_capacity_postcondition 4 (DroplessArena.new (T := Nat)) 10 (by decide)⟩

/-- C6 counterexample: with element size 8192 (larger than PAGE), calling
reserve(0) on a fresh arena acquires a block of capacity 0 — the claimed
one-element floor fails for additional = 0. -/
theorem reserve_zero_capacity_block :
    (((DroplessArena.new (T := Nat)).reserve 8192 0).chunks.map Chunk.cap) = [0] := by
  decide

/-- C6 amended: every block acquired by reserve(additional) with
additional ≥ 1 has a capacity of at least one element, for every element
size (including element_size > PAGE) and every arena state; the floor can
fail only for direct reserve(0) calls whose baseline rounds down to zero. -/
theorem reserve_capacity_floor {T : Type} (size : Nat) (s : DroplessArena T)
    (additional : Nat) (h : 1 ≤ additional) :
    1 ≤ ((((s.reserve size additional).chunks.getLast?).getD
      { base := 0, cap := 0 }).cap) := by
  rw [reserve_chunks, List.getLast?_concat]
  exact le_trans h (le_max_left _ _)

theorem reserve_capacity_floor_witness :
    1 ≤ 1 ∧ 1 ≤ ((((DroplessArena.new (T := Nat)).reserve 8192 1).chunks.getLast?).getD
      { base := 0, cap := 0 }).cap :=
  ⟨by decide, reserve_capacity_floor 8192 (DroplessArena.new (T := Nat)) 1 (by decide)⟩

/-- C9: can_allocate(n) checks the multiplication n * element_size for
overflow: on overflow the call is fatal (modelled none) rather than
returning a boolean, and without overflow it returns whether the current
window has at least n * element_size free bytes. -/
theorem can_allocate_spec {T : Type} (size : Nat) (s : DroplessArena T) (n : Nat) :
    (usizeMax < n * size → s.can_allocate size n = none) ∧
    (n * size ≤ usizeMax →
      s.can_allocate size n = some (decide (n * size ≤ s.end_ - s.start))) := by
  constructor
  · intro h
    exact (can_allocate_eq_none_iff size s n).mpr h
  · intro h
    exact (can_allocate_eq_some_iff size s n _).mpr ⟨h, rfl⟩

theorem can_allocate_spec_witness :
    (DroplessArena.new (T := Nat)).can_allocate 4 (2 ^ 62) = none ∧
    (DroplessArena.new (T := Nat)).can_allocate 4 10 = some false :=
  ⟨(can_allocate_spec 4 (DroplessArena.new (T := Nat)) (2 ^ 62)).1 (by decide),
   ((can_allocate_spec 4 (DroplessArena.new (T := Nat)) 10).2 (by decide)).trans
     (by decide)⟩

/-- C10: for every arena state — including the freshly constructed arena
with null window and no blocks — can_allocate(0) is true, so
ensure_capacity(0) never grows and returns the arena unchanged. -/
theorem can_allocate_zero {T : Type} (size : Nat) (s : DroplessArena T) :
    s.can_allocate size 0 = some true ∧ s.ensure_capacity size 0 = some s := by
  have h1 : s.can_allocate size 0 = some true := by
    refine (can_allocate_eq_some_iff size s 0 true).mpr ⟨?_, ?_⟩
    · rw [Nat.zero_mul]; exact Nat.zero_le _
    · rw [Nat.zero_mul]
      exact (decide_eq_true (Nat.zero_le _)).symm
  refine ⟨h1, ?_⟩
  unfold DroplessArena.ensure_capacity
  rw [h1]

/-- C8: calling alloc_slice_copy or alloc_slice_clone with an empty
slice returns an empty view (length 0) and the arena state unchanged —
in particular no block is acquired and the window is untouched. -/
theorem alloc_slice_empty {T : Type} (size : Nat) (s : DroplessArena T) :
    s.alloc_slice_copy size [] = some (s, 0, 0) ∧
    s.alloc_slice_clone size [] = some (s, 0, 0) :=
  ⟨rfl, rfl⟩

/-! ### Lemmas about slice writes -/

theorem lookupMem_writeSlice_lt {T : Type} (size : Nat) (src : List T) :
    ∀ (mem : List (Nat × T)) (dst a : Nat), a < dst →
      lookupMem (writeSlice size mem dst src) a = lookupMem mem a := by
  induction src with
  | nil => intro mem dst a _; rfl
  | cons v rest ih =>
      intro mem dst a ha
      have h2 : a < dst + size := Nat.lt_of_lt_of_le ha (Nat.le_add_right _ _)
      show lookupMem (writeSlice size ((dst, v) :: mem) (dst + size) rest) a =
        lookupMem mem a
      rw [ih _ _ _ h2]
      simp [lookupMem, Nat.ne_of_lt ha]

theorem lookupMem_writeSlice_get {T : Type} (size : Nat) (hsize : 0 < size)
    (src : List T) :
    ∀ (mem : List (Nat × T)) (dst i : Nat) (hi : i < src.length),
      lookupMem (writeSlice size mem dst src) (dst + i * size) =
        some (src.get ⟨i, hi⟩) := by
  induction src with
  | nil => intro mem dst i hi; exact absurd hi (by simp)
  | cons v rest ih =>
      intro mem dst i hi
      show lookupMem (writeSlice size ((dst, v) :: mem) (dst + size) rest)
        (dst + i * size) = _
      cases i with
      | zero =>
          rw [Nat.zero_mul, Nat.add_zero]
          rw [lookupMem_writeSlice_lt size rest _ _ _
            (Nat.lt_add_of_pos_right hsize)]
          simp [lookupMem]
      | succ j =>
          have hj : j < rest.length := Nat.lt_of_succ_lt_succ hi
          have heq : dst + (j + 1) * size = (dst + size) + j * size := by ring
          rw [heq]
          exact ih ((dst, v) :: mem) (dst + size) j hj

/-- Observation: reads back n consecutive element slots starting at byte
address dst from the memory map. -/
def readBack {T : Type} (size : Nat) (mem : List (Nat × T)) (dst n : Nat) :
    List (Option T) :=
  (List.range n).map (fun i => lookupMem mem (dst + i * size))

theorem readBack_writeSlice {T : Type} (size : Nat) (hsize : 0 < size)
    (src : List T) (mem : List (Nat × T)) (dst : Nat) :
    readBack size (writeSlice size mem dst src) dst src.length = src.map some := by
  apply List.ext_get
  · simp [readBack]
  · intro i h1 h2
    have hi : i < src.length := by simpa [readBack] using h1
    simp only [readBack, List.get_eq_getElem, List.getElem_map, List.getElem_range]
    rw [lookupMem_writeSlice_get size hsize src mem dst i hi]
    simp

/-- alloc_slice_clone has the same state semantics as alloc_slice_copy in
this model (cloning produces an equal value). -/
theorem alloc_slice_clone_eq_copy {T : Type} (size : Nat) (s : DroplessArena T)
    (src : List T) :
    s.alloc_slice_clone size src = s.alloc_slice_copy size src := rfl

/-- alloc_raw_slice succeeds whenever the byte count does not overflow,
bumping start past the reserved region. -/
theorem alloc_raw_slice_total {T : Type} (size : Nat) (s : DroplessArena T)
    (len : Nat) (hof : len * size ≤ usizeMax) :
    ∃ s0, s.ensure_capacity size len = some s0 ∧
      s.alloc_raw_slice size len =
        some ({ s0 with start := s0.start + len * size }, s0.start) := by
  rcases ensure_capacity_total size s len hof with h | h
  · exact ⟨s, h, by unfold DroplessArena.alloc_raw_slice; rw [h]⟩
  · exact ⟨s.reserve size len, h, by unfold DroplessArena.alloc_raw_slice; rw [h]⟩

/-- C7: for every non-empty slice src whose byte size does not overflow
usize, alloc_slice_copy(src) and alloc_slice_clone(src) succeed and
return a view of the same length as src whose consecutive slots hold,
in source order, elements equal to those of src (the clone path writing
each cloned element in source order). -/
theorem alloc_slice_content {T : Type} (size : Nat) (hsize : 0 < size)
    (s : DroplessArena T) (src : List T) (hne : src ≠ [])
    (hof : src.length * size ≤ usizeMax) :
    (s.alloc_slice_copy size src).map
        (fun r => (r.2.2, readBack size r.1.mem r.2.1 src.length)) =
      some (src.length, src.map some) ∧
    (s.alloc_slice_clone size src).map
        (fun r => (r.2.2, readBack size r.1.mem r.2.1 src.length)) =
      some (src.length, src.map some) := by
  have hz : src.length ≠ 0 := by simpa using hne
  obtain ⟨s0, _, hraw⟩ := alloc_raw_slice_total size s src.length hof
  have hcopy : s.alloc_slice_copy size src =
      some ({ { s0 with start := s0.start + src.length * size } with
        mem := writeSlice size s0.mem s0.start src }, s0.start, src.length) := by
    unfold DroplessArena.alloc_slice_copy
    simp only [if_neg hz, hraw]
  have hread : readBack size (writeSlice size s0.mem s0.start src) s0.start
      src.length = src.map some :=
    readBack_writeSlice size hsize src s0.mem s0.start
  constructor
  · rw [hcopy]
    exact congrArg (fun l => some (src.length, l)) hread
  · rw [alloc_slice_clone_eq_copy, hcopy]
    exact congrArg (fun l => some (src.length, l)) hread

theorem alloc_slice_content_witness :
    0 < 4 ∧ ([7, 8] : List Nat) ≠ [] ∧ [7, 8].length * 4 ≤ usizeMax ∧
    (((DroplessArena.new (T := Nat)).alloc_slice_copy 4 [7, 8]).map
        (fun r => (r.2.2, readBack 4 r.1.mem r.2.1 2)) =
      some (2, [some 7, some 8]) ∧
    ((DroplessArena.new (T := Nat)).alloc_slice_clone 4 [7, 8]).map
        (fun r => (r.2.2, readBack 4 r.1.mem r.2.1 2)) =
      some (2, [some 7, some 8])) :=
  ⟨by decide, by decide, by decide,
   alloc_slice_content 4 (by decide) (DroplessArena.new (T := Nat)) [7, 8]
     (by decide) (by decide)⟩

/-! ### Frame and invariant preservation for the public operations -/

/-- Full characterization of alloc on a well-formed state: the result is
well-formed, the handle lies at or above the old start, start advances
exactly one element past the handle, the handle's content is the written
value, and all strictly lower addresses are unchanged. -/
theorem alloc_spec {T : Type} (size : Nat) (hsize : 0 < size) (s : DroplessArena T)
    (hInv : Inv size s) (v : T) :
    Inv size (s.alloc size v).1 ∧
    s.start ≤ (s.alloc size v).2 ∧
    (s.alloc size v).2 + size = (s.alloc size v).1.start ∧
    lookupMem (s.alloc size v).1.mem (s.alloc size v).2 = some v ∧
    (∀ a, a < (s.alloc size v).2 →
      lookupMem (s.alloc size v).1.mem a = lookupMem s.mem a) := by
  obtain ⟨s1, hs1eq, hInv1, hle, hmem1, hroom⟩ :
      ∃ s1, (if s.start = s.end_ then s.reserve size 1 else s) = s1 ∧ Inv size s1 ∧
        s.start ≤ s1.start ∧ s1.mem = s.mem ∧ size ≤ s1.end_ - s1.start := by
    by_cases hse : s.start = s.end_
    · refine ⟨s.reserve size 1, if_pos hse, Inv_reserve size s 1, ?_,
        reserve_mem size s 1, ?_⟩
      · rw [reserve_start]
        exact le_trans hInv.1 hInv.2.1
      · have h := reserve_avail size s 1
        rwa [Nat.one_mul] at h
    · refine ⟨s, if_neg hse, hInv, Nat.le_refl _, rfl, ?_⟩
      have hlt : s.start < s.end_ := Nat.lt_of_le_of_ne hInv.1 hse
      exact Nat.le_of_dvd (by omega) hInv.2.2.1
  have halloc : s.alloc size v =
      ({ s1 with start := s1.start + size, mem := (s1.start, v) :: s1.mem },
        s1.start) := by
    unfold DroplessArena.alloc
    rw [hs1eq]
  rw [halloc]
  dsimp only
  obtain ⟨hI1, hI2, hI3, hI4⟩ := hInv1
  have hfit : s1.start + size ≤ s1.end_ := by omega
  refine ⟨?_, hle, rfl, ?_, ?_⟩
  · unfold Inv
    dsimp only
    refine ⟨hfit, hI2, ?_, ?_⟩
    · rw [Nat.sub_add_eq]
      exact Nat.dvd_sub' hI3 dvd_rfl
    · cases hlast : s1.chunks.getLast? with
      | none =>
          rw [hlast] at hI4
          exact absurd hroom (by omega)
      | some c =>
          rw [hlast] at hI4
          exact ⟨le_trans hI4.1 (Nat.le_add_right _ _), hI4.2⟩
  · simp [lookupMem]
  · intro a ha
    have hne : a ≠ s1.start := by omega
    simp only [lookupMem, if_neg hne]
    rw [hmem1]

/-- Characterization of a successful alloc_raw_slice for a positive
element count on a well-formed state. -/
theorem alloc_raw_slice_spec {T : Type} (size : Nat) (hsize : 0 < size)
    (s : DroplessArena T) (hInv : Inv size s) (len : Nat) (hlen : 0 < len)
    (s1 : DroplessArena T) (d : Nat)
    (h : s.alloc_raw_slice size len = some (s1, d)) :
    Inv size s1 ∧ s.start ≤ d ∧ d + len * size = s1.start ∧ s1.mem = s.mem := by
  unfold DroplessArena.alloc_raw_slice at h
  cases he : s.ensure_capacity size len with
  | none => rw [he] at h; cases h
  | some s0 =>
      rw [he] at h
      injection h with h
      injection h with ha hb
      subst ha
      subst hb
      have havail : len * size ≤ s0.end_ - s0.start :=
        ensure_capacity_avail size s s0 len he
      have hInv0 : Inv size s0 ∧ s.start ≤ s0.start ∧ s0.mem = s.mem := by
        rcases ensure_capacity_eq_some size s s0 len he with ⟨rfl, _⟩ | rfl
        · exact ⟨hInv, Nat.le_refl _, rfl⟩
        · refine ⟨Inv_reserve size s len, ?_, reserve_mem size s len⟩
          rw [reserve_start]
          exact le_trans hInv.1 hInv.2.1
      obtain ⟨⟨h1, h2, h3, h4⟩, hle0, hmem0⟩ := hInv0
      refine ⟨?_, hle0, rfl, hmem0⟩
      unfold Inv
      dsimp only
      refine ⟨by omega, h2, ?_, ?_⟩
      · rw [Nat.sub_add_eq]
        exact Nat.dvd_sub' h3 (dvd_mul_left size len)
      · cases hlast : s0.chunks.getLast? with
        | none =>
            rw [hlast] at h4
            have : 0 < len * size := Nat.mul_pos hlen hsize
            omega
        | some c =>
            rw [hlast] at h4
            exact ⟨le_trans h4.1 (Nat.le_add_right _ _), h4.2⟩

/-- Frame property of alloc_slice_copy: the state stays well-formed,
start is monotone, addresses below the old start keep their content, and
a non-empty handle covers exactly the bytes between the pre-write start
and the new start. -/
theorem alloc_slice_copy_frame {T : Type} (size : Nat) (hsize : 0 < size)
    (s : DroplessArena T) (hInv : Inv size s) (src : List T)
    (s1 : DroplessArena T) (d len : Nat)
    (h : s.alloc_slice_copy size src = some (s1, d, len)) :
    Inv size s1 ∧ s.start ≤ s1.start ∧
    (∀ a, a < s.start → lookupMem s1.mem a = lookupMem s.mem a) ∧
    (len * size = 0 ∨ (s.start ≤ d ∧ d + len * size ≤ s1.start)) := by
  unfold DroplessArena.alloc_slice_copy at h
  by_cases hz : src.length = 0
  · rw [if_pos hz] at h
    injection h with h
    injection h with ha hb
    injection hb with hb hc
    subst ha
    subst hb
    subst hc
    exact ⟨hInv, Nat.le_refl _, fun a _ => rfl, Or.inl (by simp)⟩
  · rw [if_neg hz] at h
    cases hraw : s.alloc_raw_slice size src.length with
    | none => rw [hraw] at h; cases h
    | some r =>
        obtain ⟨s0, d0⟩ := r
        rw [hraw] at h
        injection h with h
        injection h with ha hb
        injection hb with hb hc
        subst ha
        subst hb
        subst hc
        obtain ⟨hInv0, hle0, hstart0, hmem0⟩ := alloc_raw_slice_spec size hsize s
          hInv src.length (Nat.pos_of_ne_zero hz) s0 d0 hraw
        obtain ⟨h1, h2, h3, h4⟩ := hInv0
        refine ⟨⟨h1, h2, h3, h4⟩, ?_, ?_, Or.inr ⟨hle0, le_of_eq hstart0⟩⟩
        · show s.start ≤ s0.start
          omega
        · intro a ha
          show lookupMem (writeSlice size s0.mem d0 src) a = lookupMem s.mem a
          rw [lookupMem_writeSlice_lt size src s0.mem d0 a (by omega)]
          rw [hmem0]

/-- Frame property of one public operation. -/
theorem step_frame {T : Type} (size : Nat) (hsize : 0 < size) (s : DroplessArena T)
    (hInv : Inv size s) (op : Op T) (s1 : DroplessArena T) (h? : Option Handle)
    (h : step size s op = some (s1, h?)) :
    Inv size s1 ∧ s.start ≤ s1.start ∧
    (∀ a, a < s.start → lookupMem s1.mem a = lookupMem s.mem a) ∧
    (∀ hd, h? = some hd →
      hd.len = 0 ∨ (s.start ≤ hd.addr ∧ hd.addr + hd.len ≤ s1.start)) := by
  cases op with
  | alloc v =>
      simp only [step] at h
      injection h with h
      injection h with ha hb
      obtain ⟨hI, hle, hstart, _, hframe⟩ := alloc_spec size hsize s hInv v
      subst ha
      subst hb
      refine ⟨hI, by omega, ?_, ?_⟩
      · intro a ha
        exact hframe a (by omega)
      · intro hd hhd
        injection hhd with hhd
        subst hhd
        exact Or.inr ⟨hle, le_of_eq hstart⟩
  | alloc_slice_copy src =>
      simp only [step] at h
      cases hsc : s.alloc_slice_copy size src with
      | none => rw [hsc] at h; cases h
      | some r =>
          obtain ⟨s0, d, len⟩ := r
          rw [hsc] at h
          injection h with h
          injection h with ha hb
          subst ha
          subst hb
          obtain ⟨hI, hle, hframe, hhd⟩ :=
            alloc_slice_copy_frame size hsize s hInv src s0 d len hsc
          refine ⟨hI, hle, hframe, ?_⟩
          intro hd hhd2
          injection hhd2 with hhd2
          subst hhd2
          exact hhd
  | alloc_slice_clone src =>
      simp only [step] at h
      rw [alloc_slice_clone_eq_copy] at h
      cases hsc : s.alloc_slice_copy size src with
      | none => rw [hsc] at h; cases h
      | some r =>
          obtain ⟨s0, d, len⟩ := r
          rw [hsc] at h
          injection h with h
          injection h with ha hb
          subst ha
          subst hb
          obtain ⟨hI, hle, hframe, hhd⟩ :=
            alloc_slice_copy_frame size hsize s hInv src s0 d len hsc
          refine ⟨hI, hle, hframe, ?_⟩
          intro hd hhd2
          injection hhd2 with hhd2
          subst hhd2
          exact hhd
  | alloc_str src =>
      simp only [step] at h
      cases hsc : s.alloc_slice_copy size src with
      | none => rw [hsc] at h; cases h
      | some r =>
          obtain ⟨s0, d, len⟩ := r
          rw [hsc] at h
          injection h with h
          injection h with ha hb
          subst ha
          subst hb
          obtain ⟨hI, hle, hframe, hhd⟩ :=
            alloc_slice_copy_frame size hsize s hInv src s0 d len hsc
          refine ⟨hI, hle, hframe, ?_⟩
          intro hd hhd2
          injection hhd2 with hhd2
          subst hhd2
          exact hhd
  | reserve n =>
      simp only [step] at h
      injection h with h
      injection h with ha hb
      subst ha
      subst hb
      refine ⟨Inv_reserve size s n, ?_, ?_, ?_⟩
      · rw [reserve_start]
        exact le_trans hInv.1 hInv.2.1
      · intro a _
        rw [reserve_mem]
      · intro hd hhd
        cases hhd
  | ensure_capacity n =>
      simp only [step] at h
      cases he : s.ensure_capacity size n with
      | none => rw [he] at h; cases h
      | some s0 =>
          rw [he] at h
          injection h with h
          injection h with ha hb
          subst ha
          subst hb
          refine ⟨?_, ?_, ?_, ?_⟩
          · rcases ensure_capacity_eq_some size s s0 n he with ⟨rfl, _⟩ | rfl
            · exact hInv
            · exact Inv_reserve size s n
          · rcases ensure_capacity_eq_some size s s0 n he with ⟨rfl, _⟩ | rfl
            · exact Nat.le_refl _
            · rw [reserve_start]
              exact le_trans hInv.1 hInv.2.1
          · rcases ensure_capacity_eq_some size s s0 n he with ⟨rfl, _⟩ | rfl
            · intro a _; rfl
            · intro a _
              rw [reserve_mem]
          · intro hd hhd
            cases hhd

/-- Frame property of a whole operation sequence, including pairwise
disjointness of the issued handles. -/
theorem run_frame {T : Type} (size : Nat) (hsize : 0 < size) :
    ∀ (ops : List (Op T)) (s : DroplessArena T), Inv size s →
      ∀ s' hs, run size s ops = some (s', hs) →
        Inv size s' ∧ s.start ≤ s'.start ∧
        (∀ a, a < s.start → lookupMem s'.mem a = lookupMem s.mem a) ∧
        (∀ hd, hd ∈ hs →
          hd.len = 0 ∨ (s.start ≤ hd.addr ∧ hd.addr + hd.len ≤ s'.start)) ∧
        List.Pairwise RangesDisjoint hs := by
  intro ops
  induction ops with
  | nil =>
      intro s hInv s' hs h
      unfold run at h
      injection h with h
      injection h with ha hb
      subst ha
      subst hb
      exact ⟨hInv, Nat.le_refl _, fun a _ => rfl, fun hd hhd => absurd hhd
        (List.not_mem_nil hd), List.Pairwise.nil⟩
  | cons op ops ih =>
      intro s hInv s' hs h
      unfold run at h
      split at h
      · cases h
      next s1 h? hstep =>
        split at h
        · cases h
        next s2 hs1 hrun =>
              injection h with h
              injection h with ha hb
              subst ha
              subst hb
              obtain ⟨hI1, hle1, hfr1, hh1⟩ :=
                step_frame size hsize s hInv op s1 h? hstep
              obtain ⟨hI2, hle2, hfr2, hh2, hpw⟩ := ih s1 hI1 s2 hs1 hrun
              refine ⟨hI2, le_trans hle1 hle2, ?_, ?_, ?_⟩
              · intro a ha
                rw [hfr2 a (by omega), hfr1 a ha]
              · intro hd hhd
                rcases List.mem_append.mp hhd with hmem | hmem
                · cases hq : h? with
                  | none => rw [hq] at hmem; cases hmem
                  | some hd0 =>
                      rw [hq] at hmem
                      have : hd = hd0 := by
                        cases hmem with
                        | head => rfl
                        | tail _ hmem2 => cases hmem2
                      subst this
                      rcases hh1 hd hq with h0 | ⟨ha, hb⟩
                      · exact Or.inl h0
                      · exact Or.inr ⟨ha, by omega⟩
                · rcases hh2 hd hmem with h0 | ⟨ha, hb⟩
                  · exact Or.inl h0
                  · exact Or.inr ⟨by omega, hb⟩
              · rw [List.pairwise_append]
                refine ⟨?_, hpw, ?_⟩
                · cases h? with
                  | none => exact List.Pairwise.nil
                  | some hd0 => exact List.pairwise_singleton _ _
                · intro x hx y hy
                  cases hq : h? with
                  | none => rw [hq] at hx; cases hx
                  | some hd0 =>
                      rw [hq] at hx
                      have hx0 : x = hd0 := by
                        cases hx with
                        | head => rfl
                        | tail _ hx2 => cases hx2
                      subst hx0
                      rcases hh1 x hq with h0 | ⟨ha, hb⟩
                      · exact Or.inl h0
                      · rcases hh2 y hy with h0' | ⟨ha', _⟩
                        · exact Or.inr (Or.inl h0')
                        · exact Or.inr (Or.inr (Or.inl (by omega)))

/-! ### Claim theorems: handle stability, disjointness, reachability invariant -/

/-- C1: alloc(v) returns a handle whose content equals v immediately
after the call, and the content reachable through that handle is
unchanged by every subsequent sequence of allocation calls (alloc,
alloc_slice_copy, alloc_slice_clone, alloc_str) and growths (reserve,
ensure_capacity). -/
theorem alloc_content_stable {T : Type} (size : Nat) (hsize : 0 < size)
    (s : DroplessArena T) (hInv : Inv size s) (v : T)
    (s1 : DroplessArena T) (d : Nat) (halloc : s.alloc size v = (s1, d)) :
    lookupMem s1.mem d = some v ∧
    ∀ ops s2 hs, run size s1 ops = some (s2, hs) →
      lookupMem s2.mem d = some v := by
  have hspec := alloc_spec size hsize s hInv v
  rw [halloc] at hspec
  dsimp only at hspec
  obtain ⟨hI, _, hstart, hcontent, _⟩ := hspec
  refine ⟨hcontent, ?_⟩
  intro ops s2 hs hrun
  obtain ⟨_, _, hfr, _, _⟩ := run_frame size hsize ops s1 hI s2 hs hrun
  rw [hfr d (by omega)]
  exact hcontent

theorem alloc_content_stable_witness :
    0 < 4 ∧ Inv 4 (DroplessArena.new (T := Nat)) ∧
    (DroplessArena.new (T := Nat)).alloc 4 7 =
      ((⟨5, 4097, [⟨1, 1024⟩], 4097, [(1, 7)]⟩ : DroplessArena Nat), 1) ∧
    lookupMem ((⟨5, 4097, [⟨1, 1024⟩], 4097, [(1, 7)]⟩ : DroplessArena Nat)).mem 1 =
      some 7 ∧
    run 4 ((⟨5, 4097, [⟨1, 1024⟩], 4097, [(1, 7)]⟩ : DroplessArena Nat)) [Op.alloc 9] =
      some ((⟨9, 4097, [⟨1, 1024⟩], 4097, [(5, 9), (1, 7)]⟩ : DroplessArena Nat),
        [⟨5, 4⟩]) ∧
    lookupMem ((⟨9, 4097, [⟨1, 1024⟩], 4097, [(5, 9), (1, 7)]⟩ :
      DroplessArena Nat)).mem 1 = some 7 :=
  ⟨by decide, Inv_new 4, by decide,
   (alloc_content_stable 4 (by decide) DroplessArena.new (Inv_new 4) 7
     (⟨5, 4097, [⟨1, 1024⟩], 4097, [(1, 7)]⟩ : DroplessArena Nat) 1 (by decide)).1,
   by decide,
   (alloc_content_stable 4 (by decide) DroplessArena.new (Inv_new 4) 7
     (⟨5, 4097, [⟨1, 1024⟩], 4097, [(1, 7)]⟩ : DroplessArena Nat) 1 (by decide)).2
     [Op.alloc 9]
     (⟨9, 4097, [⟨1, 1024⟩], 4097, [(5, 9), (1, 7)]⟩ : DroplessArena Nat)
     [⟨5, 4⟩] (by decide)⟩

/-- C2: for every sequence of public operations on one arena starting
from construction, the byte ranges of the returned handles are pairwise
disjoint. -/
theorem handles_pairwise_disjoint {T : Type} (size : Nat) (hsize : 0 < size)
    (ops : List (Op T)) (s' : DroplessArena T) (hs : List Handle)
    (h : run size DroplessArena.new ops = some (s', hs)) :
    List.Pairwise RangesDisjoint hs :=
  (run_frame size hsize ops DroplessArena.new (Inv_new size) s' hs h).2.2.2.2

theorem handles_pairwise_disjoint_witness :
    0 < 4 ∧
    run 4 (DroplessArena.new (T := Nat)) [Op.alloc 7, Op.alloc_slice_copy [1, 2]] =
      some ((⟨13, 4097, [⟨1, 1024⟩], 4097, [(9, 2), (5, 1), (1, 7)]⟩ :
        DroplessArena Nat), [⟨1, 4⟩, ⟨5, 8⟩]) ∧
    List.Pairwise RangesDisjoint [⟨1, 4⟩, ⟨5, 8⟩] :=
  ⟨by decide, by decide,
   handles_pairwise_disjoint 4 (by decide) [Op.alloc 7, Op.alloc_slice_copy [1, 2]]
     (⟨13, 4097, [⟨1, 1024⟩], 4097, [(9, 2), (5, 1), (1, 7)]⟩ : DroplessArena Nat)
     [⟨1, 4⟩, ⟨5, 8⟩] (by decide)⟩

/-- C5: every arena state reachable from construction through the public
operations satisfies the window invariant: start ≤ end, the window lies
inside the most recently pushed block (both pointers null when no block
exists), and end - start is a whole multiple of the element size, so a
non-empty window has room for at least one element — which is what lets
alloc test only start = end instead of the general capacity check. -/
theorem reachable_window_invariant {T : Type} (size : Nat) (hsize : 0 < size)
    (ops : List (Op T)) (s' : DroplessArena T) (hs : List Handle)
    (h : run size DroplessArena.new ops = some (s', hs)) :
    WindowInv size s' := by
  obtain ⟨hI, _, _, _, _⟩ :=
    run_frame size hsize ops DroplessArena.new (Inv_new size) s' hs h
  obtain ⟨h1, h2, h3, h4⟩ := hI
  unfold WindowInv
  refine ⟨h1, h3, ?_, ?_⟩
  · cases hlast : s'.chunks.getLast? with
    | none =>
        rw [hlast] at h4
        exact h4
    | some c =>
        rw [hlast] at h4
        exact ⟨h4.1, le_of_eq h4.2⟩
  · intro hlt
    have hd := Nat.le_of_dvd (by omega) h3
    omega

theorem reachable_window_invariant_witness :
    0 < 4 ∧
    run 4 (DroplessArena.new (T := Nat)) [Op.alloc 5] =
      some ((⟨5, 4097, [⟨1, 1024⟩], 4097, [(1, 5)]⟩ : DroplessArena Nat),
        [⟨1, 4⟩]) ∧
    WindowInv 4 (⟨5, 4097, [⟨1, 1024⟩], 4097, [(1, 5)]⟩ : DroplessArena Nat) :=
  ⟨by decide, by decide,
   reachable_window_invariant 4 (by decide) [Op.alloc 5]
     (⟨5, 4097, [⟨1, 1024⟩], 4097, [(1, 5)]⟩ : DroplessArena Nat)
     [⟨1, 4⟩] (by decide)⟩

end Pochita
